import Mathlib

/-!
Shallow embedding of the Anzen runtime reference-counting facility
(`Sources/Runtime/runtime.cc` and `Sources/Runtime/include/runtime.h`).

The C code manages a record `azn_gc_object { void* value; void (*destructor)(void*);
size_t* count; }` with three operations:

  * `azn_gc_object_init`    : `value = malloc(size); destructor = d;
                               count = malloc(sizeof(size_t)); *count = 1;`
  * `azn_gc_object_retain`  : `*count += 1;`
  * `azn_gc_object_release` : `*count -= 1; if (*count == 0) {
                               if (destructor != nullptr) destructor(value);
                               free(value); }`

We model pointers as natural-number addresses (0 standing for `nullptr`), the
`size_t` heap cells as a total map `Nat → Nat` whose stored values are reduced
modulo `2 ^ w` (`w` = bit width of `size_t`), the destructor function pointer as
`Option Nat` (`none` standing for `nullptr`), and the observable interactions
with the host (allocator calls, destructor invocations) as a trace of events
appended in program order.  `malloc` results are supplied by the caller as an
allocator oracle (`pa`, `ca`), so that allocation failure is the oracle
answering with the null address 0.
-/

namespace AnzenRuntime

/-- Observable actions of the runtime: a call into the host allocator
(`malloc` with the requested byte count and the returned address, `free` with
the freed address) or an invocation of a caller-supplied destructor callback on
a payload address. -/
inductive Event : Type
  | malloc (size : Nat) (ret : Nat)
  | free (p : Nat)
  | destructorCall (f : Nat) (arg : Nat)
  deriving DecidableEq, Repr

/-- The `azn_gc_object` record of `runtime.h`: a payload pointer `value`, an
optional destructor function pointer, and a pointer `count` to the separately
allocated `size_t` reference counter. -/
structure azn_gc_object where
  value : Nat
  destructor : Option Nat
  count : Nat
  deriving DecidableEq, Repr

/-- Runtime state: the managed-object record under consideration, the heap of
`size_t` cells addressed by counter pointers, and the trace of events emitted
so far. -/
structure RState where
  obj : azn_gc_object
  mem : Nat → Nat
  trace : List Event

/-- A blank starting state (uninitialized record, zeroed heap, empty trace). -/
def startState : RState :=
  { obj := { value := 0, destructor := none, count := 0 },
    mem := fun _ => 0,
    trace := [] }

/-- Translation of `azn_gc_object_init`.  The allocator oracle supplies the
addresses `pa` (for `malloc(size)`) and `ca` (for `malloc(sizeof(size_t))`);
the code stores them unconditionally, stores the destructor, and writes 1 into
the counter cell.  `w / 8` models `sizeof(size_t)` in bytes. -/
def azn_gc_object_init (w : Nat) (s : RState) (size : Nat)
    (destructor : Option Nat) (pa ca : Nat) : RState :=
  { obj := { value := pa, destructor := destructor, count := ca },
    mem := Function.update s.mem ca (1 % 2 ^ w),
    trace := s.trace ++ [Event.malloc size pa, Event.malloc (w / 8) ca] }

/-- Translation of `azn_gc_object_retain`: `*(object->count) += 1` on a
`size_t` cell, i.e. an increment modulo `2 ^ w`. -/
def azn_gc_object_retain (w : Nat) (s : RState) : RState :=
  { s with
    mem := Function.update s.mem s.obj.count ((s.mem s.obj.count + 1) % 2 ^ w) }

/-- The events emitted by the zero branch of `azn_gc_object_release`: the
destructor call on the payload when a destructor is present, followed by
`free` of the payload. -/
def finalEvents (o : azn_gc_object) : List Event :=
  (match o.destructor with
   | some f => [Event.destructorCall f o.value]
   | none => []) ++ [Event.free o.value]

/-- Translation of `azn_gc_object_release`: `*(object->count) -= 1` on a
`size_t` cell (decrement modulo `2 ^ w`, written as adding `2 ^ w - 1`), then,
if the stored counter is now 0, invoke the destructor (if non-null) on the
payload and free the payload. -/
def azn_gc_object_release (w : Nat) (s : RState) : RState :=
  let c := (s.mem s.obj.count + (2 ^ w - 1)) % 2 ^ w
  let s1 : RState := { s with mem := Function.update s.mem s.obj.count c }
  if c = 0 then { s1 with trace := s1.trace ++ finalEvents s.obj } else s1

/-- Whether an event is a destructor (cleanup) invocation. -/
def isCleanup : Event → Bool
  | Event.destructorCall _ _ => true
  | _ => false

/-- Number of cleanup (destructor) invocations recorded in a trace. -/
def cleanupCount (t : List Event) : Nat := (t.filter isCleanup).length

/-- A lifecycle operation on an already-initialized record. -/
inductive Op : Type
  | retainOp
  | releaseOp
  deriving DecidableEq, Repr

/-- Apply one lifecycle operation to the state. -/
def applyOp (w : Nat) : Op → RState → RState
  | Op.retainOp, s => azn_gc_object_retain w s
  | Op.releaseOp, s => azn_gc_object_release w s

/-- Run a sequence of lifecycle operations from left to right. -/
def run (w : Nat) : List Op → RState → RState
  | [], s => s
  | op :: ops, s => run w ops (applyOp w op s)

/-- Number of retain operations in a sequence. -/
def retCount : List Op → Nat
  | [] => 0
  | Op.retainOp :: ops => retCount ops + 1
  | Op.releaseOp :: ops => retCount ops

/-- Number of release operations in a sequence. -/
def relCount : List Op → Nat
  | [] => 0
  | Op.retainOp :: ops => relCount ops
  | Op.releaseOp :: ops => relCount ops + 1

/-- Validity of an operation sequence starting from `owners` live references:
every operation requires a positive reference count beforehand (no operation
on a finalized object, no over-release), `retainOp` adds an owner and
`releaseOp` removes one.  This formalizes the spec's caller contract of a
balanced retain/release discipline. -/
def validFrom : Nat → List Op → Bool
  | _, [] => true
  | c, Op.retainOp :: ops => decide (0 < c) && validFrom (c + 1) ops
  | c, Op.releaseOp :: ops => decide (0 < c) && validFrom (c - 1) ops

/-- Validity of an operation sequence on a freshly initialized record
(one initial owner). -/
def validOps (ops : List Op) : Bool := validFrom 1 ops

/-- A sample initialized state used to instantiate the theorems: an 8-bit
word, a 4-byte payload at address 100, destructor 7, counter cell at
address 200. -/
def demoState : RState := azn_gc_object_init 8 startState 4 (some 7) 100 200

/-- The sample state after its single owner released it: the counter cell
holds 0 and the payload has been finalized. -/
def drainedState : RState := azn_gc_object_release 8 demoState

lemma two_pow_pos (w : Nat) : 0 < 2 ^ w := Nat.pos_pow_of_pos w (by omega)

lemma one_lt_two_pow (w : Nat) (hw : 0 < w) : 1 < 2 ^ w := by
  calc 1 < 2 ^ 1 := by omega
  _ ≤ 2 ^ w := Nat.pow_le_pow_right (by omega) hw

lemma dec_mod (w c : Nat) (h1 : 1 ≤ c) (h2 : c < 2 ^ w) :
    (c + (2 ^ w - 1)) % 2 ^ w = c - 1 := by
  have hp := two_pow_pos w
  have he : c + (2 ^ w - 1) = (c - 1) + 2 ^ w := by omega
  rw [he, Nat.add_mod_right]
  exact Nat.mod_eq_of_lt (by omega)

lemma retain_spec (w : Nat) (s : RState) :
    (azn_gc_object_retain w s).obj = s.obj ∧
    (azn_gc_object_retain w s).trace = s.trace ∧
    (azn_gc_object_retain w s).mem s.obj.count =
      (s.mem s.obj.count + 1) % 2 ^ w ∧
    ∀ a, a ≠ s.obj.count → (azn_gc_object_retain w s).mem a = s.mem a := by
  refine ⟨rfl, rfl, Function.update_same _ _ _, fun a ha => ?_⟩
  exact Function.update_noteq ha _ _

lemma release_of_pos (w : Nat) (s : RState) (c : Nat) (hc : s.mem s.obj.count = c)
    (h1 : 2 ≤ c) (h2 : c < 2 ^ w) :
    azn_gc_object_release w s =
      { s with mem := Function.update s.mem s.obj.count (c - 1) } := by
  have hd : (c + (2 ^ w - 1)) % 2 ^ w = c - 1 := dec_mod w c (by omega) h2
  simp only [azn_gc_object_release, hc, hd]
  rw [if_neg (by omega)]

lemma release_of_one (w : Nat) (s : RState)
    (hc : s.mem s.obj.count = 1) :
    azn_gc_object_release w s =
      { obj := s.obj, mem := Function.update s.mem s.obj.count 0,
        trace := s.trace ++ finalEvents s.obj } := by
  have hp := two_pow_pos w
  have hd : (1 + (2 ^ w - 1)) % 2 ^ w = 0 := by
    have he : 1 + (2 ^ w - 1) = 2 ^ w := by omega
    rw [he, Nat.mod_self]
  simp only [azn_gc_object_release, hc, hd]
  simp

lemma release_of_zero (w : Nat) (s : RState) (hw : 0 < w)
    (hc : s.mem s.obj.count = 0) :
    azn_gc_object_release w s =
      { s with mem := Function.update s.mem s.obj.count (2 ^ w - 1) } := by
  have hp := one_lt_two_pow w hw
  have hd : (0 + (2 ^ w - 1)) % 2 ^ w = 2 ^ w - 1 := by
    rw [Nat.zero_add]
    exact Nat.mod_eq_of_lt (by omega)
  simp only [azn_gc_object_release, hc, hd]
  rw [if_neg (by omega)]

lemma cleanupCount_append (t1 t2 : List Event) :
    cleanupCount (t1 ++ t2) = cleanupCount t1 + cleanupCount t2 := by
  simp [cleanupCount, List.filter_append]

lemma cleanupCount_finalEvents (o : azn_gc_object) :
    cleanupCount (finalEvents o) = match o.destructor with
      | some _ => 1
      | none => 0 := by
  obtain ⟨v, d, cnt⟩ := o
  cases d <;> simp [finalEvents, cleanupCount, isCleanup]

lemma run_append (w : Nat) (l1 l2 : List Op) (s : RState) :
    run w (l1 ++ l2) s = run w l2 (run w l1 s) := by
  induction l1 generalizing s with
  | nil => rfl
  | cons op t ih => simpa only [List.cons_append, run] using ih (applyOp w op s)

lemma retCount_replicate_retain (k : Nat) :
    retCount (List.replicate k Op.retainOp) = k := by
  induction k with
  | zero => rfl
  | succ k ih => simp [List.replicate_succ, retCount, ih]

lemma relCount_replicate_retain (k : Nat) :
    relCount (List.replicate k Op.retainOp) = 0 := by
  induction k with
  | zero => rfl
  | succ k ih => simp [List.replicate_succ, relCount, ih]

lemma retCount_replicate_release (m : Nat) :
    retCount (List.replicate m Op.releaseOp) = 0 := by
  induction m with
  | zero => rfl
  | succ m ih => simp [List.replicate_succ, retCount, ih]

lemma relCount_replicate_release (m : Nat) :
    relCount (List.replicate m Op.releaseOp) = m := by
  induction m with
  | zero => rfl
  | succ m ih => simp [List.replicate_succ, relCount, ih]

lemma validFrom_replicate_retain (k c : Nat) (hc : 0 < c) :
    validFrom c (List.replicate k Op.retainOp) = true := by
  induction k generalizing c with
  | zero => rfl
  | succ k ih =>
      simp only [List.replicate_succ, validFrom, Bool.and_eq_true,
        decide_eq_true_eq]
      exact ⟨hc, ih (c + 1) (by omega)⟩

lemma validFrom_replicate_release (m c : Nat) (hm : m ≤ c) :
    validFrom c (List.replicate m Op.releaseOp) = true := by
  induction m generalizing c with
  | zero => rfl
  | succ m ih =>
      simp only [List.replicate_succ, validFrom, Bool.and_eq_true,
        decide_eq_true_eq]
      exact ⟨by omega, ih (c - 1) (by omega)⟩

lemma validFrom_zero (ops : List Op) (h : validFrom 0 ops = true) :
    ops = [] := by
  cases ops with
  | nil => rfl
  | cons op t => cases op <;> simp [validFrom] at h

/-- Main run invariant: from a state whose counter cell holds `0 < c`, running
a valid operation sequence (with no counter overflow) preserves the record,
counts the references exactly, and leaves the trace untouched unless the final
release drains the counter to zero, in which case exactly the finalization
events are appended at the very end. -/
lemma run_spec (w : Nat) :
    ∀ (ops : List Op) (s : RState) (c : Nat),
      s.mem s.obj.count = c → 0 < c → c + retCount ops < 2 ^ w →
      validFrom c ops = true →
      relCount ops ≤ c + retCount ops ∧
      (run w ops s).obj = s.obj ∧
      (run w ops s).mem s.obj.count = c + retCount ops - relCount ops ∧
      ((0 < c + retCount ops - relCount ops ∧ (run w ops s).trace = s.trace) ∨
       (relCount ops = c + retCount ops ∧
        (run w ops s).trace = s.trace ++ finalEvents s.obj)) := by
  intro ops
  induction ops with
  | nil =>
      intro s c hc hpos hlt hval
      exact ⟨by simp [relCount], rfl, by simpa [retCount, relCount] using hc,
        Or.inl ⟨by simpa [retCount, relCount] using hpos, rfl⟩⟩
  | cons op t ih =>
      intro s c hc hpos hlt hval
      cases op with
      | retainOp =>
          simp only [validFrom, Bool.and_eq_true, decide_eq_true_eq] at hval
          obtain ⟨-, hval⟩ := hval
          simp only [retCount, relCount] at hlt ⊢
          have hrun : run w (Op.retainOp :: t) s =
              run w t (azn_gc_object_retain w s) := rfl
          set s1 := azn_gc_object_retain w s with hs1
          have hobj1 : s1.obj = s.obj := rfl
          have htr1 : s1.trace = s.trace := rfl
          have hmem1 : s1.mem s1.obj.count = c + 1 := by
            rw [hs1]
            simp only [azn_gc_object_retain]
            rw [Function.update_same, hc]
            exact Nat.mod_eq_of_lt (by omega)
          obtain ⟨hrel, hobj, hcnt, htr⟩ :=
            ih s1 (c + 1) hmem1 (by omega) (by omega) hval
          rw [hobj1] at hobj hcnt htr
          refine ⟨by omega, by rw [hrun, hobj], ?_, ?_⟩
          · rw [hrun, hcnt]; omega
          · rw [hrun]
            rcases htr with ⟨hv, he⟩ | ⟨hv, he⟩
            · exact Or.inl ⟨by omega, by rw [he, htr1]⟩
            · exact Or.inr ⟨by omega, by rw [he, htr1]⟩
      | releaseOp =>
          simp only [validFrom, Bool.and_eq_true, decide_eq_true_eq] at hval
          obtain ⟨-, hval⟩ := hval
          simp only [retCount, relCount] at hlt ⊢
          have hrun : run w (Op.releaseOp :: t) s =
              run w t (azn_gc_object_release w s) := rfl
          by_cases h1 : c = 1
          · subst h1
            have ht0 : t = [] := validFrom_zero t hval
            subst ht0
            have hst := release_of_one w s (by rw [hc])
            have hr : run w [Op.releaseOp] s = azn_gc_object_release w s := rfl
            rw [hr, hst]
            refine ⟨by simp [retCount, relCount], rfl, ?_, Or.inr ⟨?_, rfl⟩⟩
            · show Function.update s.mem s.obj.count 0 s.obj.count = _
              rw [Function.update_same]
              simp [retCount, relCount]
            · simp [retCount, relCount]
          · have hge : 2 ≤ c := by omega
            have hst := release_of_pos w s c hc hge (by omega)
            set s1 := azn_gc_object_release w s with hs1
            have hobj1 : s1.obj = s.obj := by rw [hst]
            have htr1 : s1.trace = s.trace := by rw [hst]
            have hmem1 : s1.mem s1.obj.count = c - 1 := by
              rw [hst]
              simp only [Function.update_same]
            obtain ⟨hrel, hobj, hcnt, htr⟩ :=
              ih s1 (c - 1) hmem1 (by omega) (by omega) hval
            rw [hobj1] at hobj hcnt htr
            refine ⟨by omega, by rw [hrun, hobj], ?_, ?_⟩
            · rw [hrun, hcnt]; omega
            · rw [hrun]
              rcases htr with ⟨hv, he⟩ | ⟨hv, he⟩
              · exact Or.inl ⟨by omega, by rw [he, htr1]⟩
              · exact Or.inr ⟨by omega, by rw [he, htr1]⟩

lemma init_mem_count (w size pa ca : Nat) (d : Option Nat) (s : RState)
    (hw : 0 < w) :
    (azn_gc_object_init w s size d pa ca).mem
      (azn_gc_object_init w s size d pa ca).obj.count = 1 := by
  have h1 := one_lt_two_pow w hw
  simp only [azn_gc_object_init]
  rw [Function.update_same]
  exact Nat.mod_eq_of_lt (by omega)

lemma init_cleanupCount (w size pa ca : Nat) (d : Option Nat) (s : RState) :
    cleanupCount (azn_gc_object_init w s size d pa ca).trace =
      cleanupCount s.trace := by
  simp [azn_gc_object_init, cleanupCount_append, cleanupCount, isCleanup]

lemma release_trace_cases (w : Nat) (s : RState) :
    (azn_gc_object_release w s).trace = s.trace ∨
    (azn_gc_object_release w s).trace = s.trace ++ finalEvents s.obj := by
  simp only [azn_gc_object_release]
  split
  · exact Or.inr rfl
  · exact Or.inl rfl

lemma free_mem_finalEvents (o : azn_gc_object) (p : Nat)
    (h : Event.free p ∈ finalEvents o) : p = o.value := by
  obtain ⟨v, d, cnt⟩ := o
  cases d <;> simp_all [finalEvents]

/-- C9: `init` performs no allocation checking of its own: whatever addresses
the allocator oracle returns (including the null address 0 signalling
failure), they are stored unchanged in the record, and every remaining step of
`init` (storing the destructor, allocating the counter, writing 1 into it,
with exactly the two `malloc` interactions) is still performed, with no
higher-level error introduced. -/
theorem init_propagates_allocator_failure (w size pa ca : Nat)
    (d : Option Nat) (s : RState) :
    (azn_gc_object_init w s size d pa ca).obj.value = pa ∧
    (azn_gc_object_init w s size d pa ca).obj.destructor = d ∧
    (azn_gc_object_init w s size d pa ca).obj.count = ca ∧
    (azn_gc_object_init w s size d pa ca).mem ca = 1 % 2 ^ w ∧
    (azn_gc_object_init w s size d pa ca).trace =
      s.trace ++ [Event.malloc size pa, Event.malloc (w / 8) ca] :=
  ⟨rfl, rfl, rfl, Function.update_same _ _ _, rfl⟩

/-- C4: for every size and destructor (present or absent), `init` sets the
reference counter to 1, and a single `release` with no preceding `retain`
drains it to 0 and finalizes the object: the destructor fires when present,
then the payload is freed. -/
theorem init_count_one_single_release_finalizes (w size pa ca : Nat)
    (d : Option Nat) (s : RState) (hw : 0 < w) :
    (azn_gc_object_init w s size d pa ca).mem
      (azn_gc_object_init w s size d pa ca).obj.count = 1 ∧
    (azn_gc_object_release w (azn_gc_object_init w s size d pa ca)).mem
      (azn_gc_object_init w s size d pa ca).obj.count = 0 ∧
    (azn_gc_object_release w (azn_gc_object_init w s size d pa ca)).trace =
      s.trace ++ [Event.malloc size pa, Event.malloc (w / 8) ca] ++
        (match d with
         | some f => [Event.destructorCall f pa]
         | none => []) ++ [Event.free pa] := by
  have hmem := init_mem_count w size pa ca d s hw
  have hst := release_of_one w (azn_gc_object_init w s size d pa ca) hmem
  refine ⟨hmem, ?_, ?_⟩
  · rw [hst]
    exact Function.update_same _ _ _
  · rw [hst]
    show (azn_gc_object_init w s size d pa ca).trace ++
      finalEvents (azn_gc_object_init w s size d pa ca).obj = _
    cases d <;> simp [azn_gc_object_init, finalEvents]

/-- C3: a `release` on a record whose counter holds `0 < c < 2 ^ w` decrements
the counter by exactly 1; it appends the finalization events (destructor call
when present, then `free` of the payload) precisely when the counter reaches
0 (`c = 1`), and otherwise appends nothing; when a destructor is present and
the counter reaches 0, the destructor call on the payload is recorded strictly
before the `free` of the payload. -/
theorem release_decrements_and_finalizes_iff_zero (w : Nat) (s : RState)
    (c : Nat) (hc : s.mem s.obj.count = c) (h0 : 0 < c) (h2 : c < 2 ^ w) :
    (azn_gc_object_release w s).mem s.obj.count = c - 1 ∧
    (azn_gc_object_release w s).trace =
      (if c = 1 then s.trace ++ finalEvents s.obj else s.trace) ∧
    (∀ f, s.obj.destructor = some f → c = 1 →
      (azn_gc_object_release w s).trace =
        s.trace ++ [Event.destructorCall f s.obj.value,
                    Event.free s.obj.value]) := by
  by_cases h1 : c = 1
  · subst h1
    have hst := release_of_one w s hc
    rw [hst]
    refine ⟨Function.update_same _ _ _, by simp, ?_⟩
    intro f hf _
    show s.trace ++ finalEvents s.obj = _
    simp [finalEvents, hf]
  · have hge : 2 ≤ c := by omega
    have hst := release_of_pos w s c hc hge h2
    rw [hst]
    exact ⟨Function.update_same _ _ _, by simp [h1], fun f _ h => absurd h h1⟩

/-- C6: `retain` increments the counter by exactly 1 (absent overflow) and
changes nothing else: the record (payload pointer, destructor, counter
pointer) is untouched, every heap cell other than the counter cell is
untouched, and no event (destructor call, allocation, deallocation) is
emitted; `retain` is a total function, so it has no failure path. -/
theorem retain_increments_only (w : Nat) (s : RState) (c : Nat)
    (hc : s.mem s.obj.count = c) (hof : c + 1 < 2 ^ w) :
    (azn_gc_object_retain w s).obj = s.obj ∧
    (azn_gc_object_retain w s).mem s.obj.count = c + 1 ∧
    (∀ a, a ≠ s.obj.count → (azn_gc_object_retain w s).mem a = s.mem a) ∧
    (azn_gc_object_retain w s).trace = s.trace := by
  obtain ⟨hobj, htr, hmem, hframe⟩ := retain_spec w s
  refine ⟨hobj, ?_, hframe, htr⟩
  rw [hmem, hc]
  exact Nat.mod_eq_of_lt hof

/-- C7: `release` never frees the counter cell, even when it drives the
counter to 0 and finalizes the object: assuming the counter cell and the
payload are distinct addresses (as delivered by the allocator), no `free` of
the counter address is ever emitted, and any `free` event a `release` appends
concerns the payload address only. -/
theorem release_never_frees_counter (w : Nat) (s : RState)
    (hne : s.obj.count ≠ s.obj.value)
    (hno : Event.free s.obj.count ∉ s.trace) :
    Event.free s.obj.count ∉ (azn_gc_object_release w s).trace ∧
    (∀ p, Event.free p ∈ (azn_gc_object_release w s).trace →
      Event.free p ∈ s.trace ∨ p = s.obj.value) := by
  rcases release_trace_cases w s with h | h <;> rw [h]
  · exact ⟨hno, fun p hp => Or.inl hp⟩
  · constructor
    · intro hmem
      rcases List.mem_append.mp hmem with h1 | h1
      · exact hno h1
      · exact hne (free_mem_finalEvents s.obj _ h1)
    · intro p hp
      rcases List.mem_append.mp hp with h1 | h1
      · exact Or.inl h1
      · exact Or.inr (free_mem_finalEvents s.obj p h1)

/-- C8: `init` with size 0 and no destructor, followed by one `release`,
completes: the zero-byte allocation request is passed to the allocator and its
result stored as the payload, no destructor call is ever emitted, and both
operations are total functions of the model (there is no error state). -/
theorem init_zero_size_no_cleanup (w pa ca : Nat) (s : RState) (hw : 0 < w)
    (hclean : cleanupCount s.trace = 0) :
    (azn_gc_object_init w s 0 none pa ca).obj.value = pa ∧
    (azn_gc_object_release w (azn_gc_object_init w s 0 none pa ca)).trace =
      s.trace ++ [Event.malloc 0 pa, Event.malloc (w / 8) ca,
                  Event.free pa] ∧
    cleanupCount
      (azn_gc_object_release w (azn_gc_object_init w s 0 none pa ca)).trace
        = 0 := by
  have hmem := init_mem_count w 0 pa ca none s hw
  have hst := release_of_one w (azn_gc_object_init w s 0 none pa ca) hmem
  refine ⟨rfl, ?_, ?_⟩
  · rw [hst]
    show (azn_gc_object_init w s 0 none pa ca).trace ++
      finalEvents (azn_gc_object_init w s 0 none pa ca).obj = _
    simp [azn_gc_object_init, finalEvents]
  · rw [hst]
    show cleanupCount ((azn_gc_object_init w s 0 none pa ca).trace ++
      finalEvents (azn_gc_object_init w s 0 none pa ca).obj) = 0
    rw [cleanupCount_append, init_cleanupCount, hclean]
    simp [finalEvents, cleanupCount, isCleanup, azn_gc_object_init]

/-- C10: a `release` on a record whose `size_t` counter already holds 0 wraps
the counter to `2 ^ w - 1` (which is nonzero) instead of going negative, so
that call emits no destructor call and no `free`; moreover the next `m`
releases, for any `m < 2 ^ w - 1`, still emit nothing, finalization having
been silently disabled. -/
theorem release_on_zero_wraps (w m : Nat) (s : RState) (hw : 0 < w)
    (hc : s.mem s.obj.count = 0) (hm : m < 2 ^ w - 1) :
    (azn_gc_object_release w s).mem s.obj.count = 2 ^ w - 1 ∧
    2 ^ w - 1 ≠ 0 ∧
    (azn_gc_object_release w s).trace = s.trace ∧
    (run w (List.replicate m Op.releaseOp)
      (azn_gc_object_release w s)).trace = s.trace := by
  have h1 := one_lt_two_pow w hw
  have hst := release_of_zero w s hw hc
  have hmem : (azn_gc_object_release w s).mem
      (azn_gc_object_release w s).obj.count = 2 ^ w - 1 := by
    rw [hst]
    exact Function.update_same _ _ _
  have hobj : (azn_gc_object_release w s).obj = s.obj := by rw [hst]
  have htr : (azn_gc_object_release w s).trace = s.trace := by rw [hst]
  obtain ⟨-, -, -, hrest⟩ := run_spec w (List.replicate m Op.releaseOp)
    (azn_gc_object_release w s) (2 ^ w - 1) hmem (by omega)
    (by rw [retCount_replicate_release]; omega)
    (validFrom_replicate_release m (2 ^ w - 1) (by omega))
  refine ⟨by rw [hst]; exact Function.update_same _ _ _, by omega, htr, ?_⟩
  rcases hrest with ⟨-, he⟩ | ⟨hv, -⟩
  · rw [he, htr]
  · rw [retCount_replicate_release, relCount_replicate_release] at hv
    omega

/-- C1: starting from `init` with a destructor, `k` retains followed by `k`
releases emit no destructor call, and the `(k+1)`-th release is the one that
makes the destructor fire, exactly once in the whole sequence. -/
theorem balanced_retain_release_cleanup_once (w k size f pa ca : Nat)
    (s : RState) (hw : 0 < w) (hk : k + 1 < 2 ^ w)
    (hclean : cleanupCount s.trace = 0) :
    cleanupCount (run w
      (List.replicate k Op.retainOp ++ List.replicate k Op.releaseOp)
      (azn_gc_object_init w s size (some f) pa ca)).trace = 0 ∧
    cleanupCount (run w
      (List.replicate k Op.retainOp ++ List.replicate (k + 1) Op.releaseOp)
      (azn_gc_object_init w s size (some f) pa ca)).trace = 1 := by
  set S0 := azn_gc_object_init w s size (some f) pa ca with hS0
  have hmem0 : S0.mem S0.obj.count = 1 :=
    init_mem_count w size pa ca (some f) s hw
  have hcl0 : cleanupCount S0.trace = 0 := by
    rw [hS0, init_cleanupCount, hclean]
  obtain ⟨-, hobjA, hcntA, htrA⟩ :=
    run_spec w (List.replicate k Op.retainOp) S0 1 hmem0 (by omega)
      (by rw [retCount_replicate_retain]; omega)
      (validFrom_replicate_retain k 1 (by omega))
  set sA := run w (List.replicate k Op.retainOp) S0 with hsA
  rw [retCount_replicate_retain, relCount_replicate_retain] at hcntA htrA
  have htrA1 : sA.trace = S0.trace := by
    rcases htrA with ⟨-, h⟩ | ⟨h, -⟩
    · exact h
    · omega
  have hmemA : sA.mem sA.obj.count = k + 1 := by
    rw [hobjA, hcntA]
    omega
  obtain ⟨-, hobjB, hcntB, htrB⟩ :=
    run_spec w (List.replicate k Op.releaseOp) sA (k + 1) hmemA (by omega)
      (by rw [retCount_replicate_release]; omega)
      (validFrom_replicate_release k (k + 1) (by omega))
  set sB := run w (List.replicate k Op.releaseOp) sA with hsB
  rw [retCount_replicate_release, relCount_replicate_release] at hcntB htrB
  have htrB1 : sB.trace = sA.trace := by
    rcases htrB with ⟨-, h⟩ | ⟨h, -⟩
    · exact h
    · omega
  have hmemB : sB.mem sB.obj.count = 1 := by
    rw [hobjB, hcntB]; omega
  constructor
  · rw [run_append, ← hsA, ← hsB, htrB1, htrA1, hcl0]
  · rw [List.replicate_succ', ← List.append_assoc, run_append, run_append,
      ← hsA, ← hsB]
    have hstep : run w [Op.releaseOp] sB = azn_gc_object_release w sB := rfl
    rw [hstep, release_of_one w sB hmemB]
    show cleanupCount (sB.trace ++ finalEvents sB.obj) = 1
    rw [cleanupCount_append, htrB1, htrA1, hcl0, hobjB, hobjA,
      cleanupCount_finalEvents]
    have hd : S0.obj.destructor = some f := rfl
    rw [hd]
    simp

/-- C5: for an object with `N` total owners (`init` plus `N - 1` retains),
after any number `m < N` of releases neither the destructor has been invoked
nor the payload freed: the trace still carries no destructor call and no
`free` of the payload address. -/
theorem no_premature_finalization (w N m size f pa ca : Nat) (s : RState)
    (hw : 0 < w) (hN : 0 < N) (hNw : N < 2 ^ w) (hm : m < N)
    (hclean : cleanupCount s.trace = 0)
    (hfree : Event.free pa ∉ s.trace) :
    cleanupCount (run w
      (List.replicate (N - 1) Op.retainOp ++ List.replicate m Op.releaseOp)
      (azn_gc_object_init w s size (some f) pa ca)).trace = 0 ∧
    Event.free pa ∉ (run w
      (List.replicate (N - 1) Op.retainOp ++ List.replicate m Op.releaseOp)
      (azn_gc_object_init w s size (some f) pa ca)).trace := by
  set S0 := azn_gc_object_init w s size (some f) pa ca with hS0
  have hmem0 : S0.mem S0.obj.count = 1 :=
    init_mem_count w size pa ca (some f) s hw
  obtain ⟨-, hobjA, hcntA, htrA⟩ :=
    run_spec w (List.replicate (N - 1) Op.retainOp) S0 1 hmem0 (by omega)
      (by rw [retCount_replicate_retain]; omega)
      (validFrom_replicate_retain (N - 1) 1 (by omega))
  set sA := run w (List.replicate (N - 1) Op.retainOp) S0 with hsA
  rw [retCount_replicate_retain, relCount_replicate_retain] at hcntA htrA
  have htrA1 : sA.trace = S0.trace := by
    rcases htrA with ⟨-, h⟩ | ⟨h, -⟩
    · exact h
    · omega
  have hmemA : sA.mem sA.obj.count = N := by
    rw [hobjA, hcntA]; omega
  obtain ⟨-, hobjB, hcntB, htrB⟩ :=
    run_spec w (List.replicate m Op.releaseOp) sA N hmemA (by omega)
      (by rw [retCount_replicate_release]; omega)
      (validFrom_replicate_release m N (by omega))
  set sB := run w (List.replicate m Op.releaseOp) sA with hsB
  rw [retCount_replicate_release, relCount_replicate_release] at hcntB htrB
  have htrB1 : sB.trace = sA.trace := by
    rcases htrB with ⟨-, h⟩ | ⟨h, -⟩
    · exact h
    · omega
  rw [run_append, ← hsA, ← hsB, htrB1, htrA1]
  constructor
  · rw [hS0, init_cleanupCount, hclean]
  · rw [hS0]
    show Event.free pa ∉ s.trace ++
      [Event.malloc size pa, Event.malloc (w / 8) ca]
    intro hmem
    rcases List.mem_append.mp hmem with h1 | h1
    · exact hfree h1
    · simp at h1

/-- C2: across any valid operation sequence (every operation performed while
the counter is still positive) on a freshly initialized object, the destructor
is invoked at most once; and a single `release` step makes the number of
recorded destructor calls grow exactly when its decrement takes the counter
from 1 to 0 and a destructor is present. -/
theorem valid_sequence_cleanup_at_most_once (w size f pa ca c : Nat)
    (ops : List Op) (s t : RState) (hw : 0 < w)
    (hval : validOps ops = true) (hlen : 1 + retCount ops < 2 ^ w)
    (hclean : cleanupCount s.trace = 0)
    (hc : t.mem t.obj.count = c) (hcw : c < 2 ^ w) :
    cleanupCount (run w ops
      (azn_gc_object_init w s size (some f) pa ca)).trace ≤ 1 ∧
    (cleanupCount (azn_gc_object_release w t).trace ≠ cleanupCount t.trace ↔
      (c = 1 ∧ t.obj.destructor ≠ none)) := by
  constructor
  · set S0 := azn_gc_object_init w s size (some f) pa ca with hS0
    have hmem0 : S0.mem S0.obj.count = 1 :=
      init_mem_count w size pa ca (some f) s hw
    have hcl0 : cleanupCount S0.trace = 0 := by
      rw [hS0, init_cleanupCount, hclean]
    obtain ⟨-, -, -, htr⟩ := run_spec w ops S0 1 hmem0 (by omega) hlen hval
    rcases htr with ⟨-, h⟩ | ⟨-, h⟩
    · rw [h, hcl0]; omega
    · rw [h, cleanupCount_append, hcl0, cleanupCount_finalEvents]
      have hd : S0.obj.destructor = some f := rfl
      rw [hd]
      simp
  · by_cases h1 : c = 1
    · subst h1
      rw [release_of_one w t hc]
      have hgoal : cleanupCount (t.trace ++ finalEvents t.obj) =
          cleanupCount t.trace + (match t.obj.destructor with
            | some _ => 1
            | none => 0) := by
        rw [cleanupCount_append, cleanupCount_finalEvents]
      show cleanupCount (t.trace ++ finalEvents t.obj) ≠ cleanupCount t.trace
        ↔ (1 = 1 ∧ t.obj.destructor ≠ none)
      rw [hgoal]
      cases hd : t.obj.destructor <;> simp [hd]
    · have hnofire : (azn_gc_object_release w t).trace = t.trace := by
        by_cases h0 : c = 0
        · subst h0
          rw [release_of_zero w t hw hc]
        · have hge : 2 ≤ c := by omega
          rw [release_of_pos w t c hc hge hcw]
      rw [hnofire]
      simp [h1]

/-- Witness for C1 at w = 8, k = 2. -/
theorem balanced_retain_release_cleanup_once_witness :
    0 < 8 ∧ 2 + 1 < 2 ^ 8 ∧ cleanupCount startState.trace = 0 ∧
    (cleanupCount (run 8
        (List.replicate 2 Op.retainOp ++ List.replicate 2 Op.releaseOp)
        (azn_gc_object_init 8 startState 16 (some 7) 100 200)).trace = 0 ∧
     cleanupCount (run 8
        (List.replicate 2 Op.retainOp ++ List.replicate (2 + 1) Op.releaseOp)
        (azn_gc_object_init 8 startState 16 (some 7) 100 200)).trace = 1) :=
  ⟨by decide, by decide, by decide,
   balanced_retain_release_cleanup_once 8 2 16 7 100 200 startState
     (by decide) (by decide) (by decide)⟩

/-- Witness for C2 at w = 8 with the sequence retain, release, release. -/
theorem valid_sequence_cleanup_at_most_once_witness :
    0 < 8 ∧
    validOps [Op.retainOp, Op.releaseOp, Op.releaseOp] = true ∧
    1 + retCount [Op.retainOp, Op.releaseOp, Op.releaseOp] < 2 ^ 8 ∧
    cleanupCount startState.trace = 0 ∧
    demoState.mem demoState.obj.count = 1 ∧ 1 < 2 ^ 8 ∧
    (cleanupCount (run 8 [Op.retainOp, Op.releaseOp, Op.releaseOp]
        (azn_gc_object_init 8 startState 4 (some 7) 100 200)).trace ≤ 1 ∧
     (cleanupCount (azn_gc_object_release 8 demoState).trace ≠
        cleanupCount demoState.trace ↔
      (1 = 1 ∧ demoState.obj.destructor ≠ none))) :=
  ⟨by decide, by decide, by decide, by decide, by decide, by decide,
   valid_sequence_cleanup_at_most_once 8 4 7 100 200 1
     [Op.retainOp, Op.releaseOp, Op.releaseOp] startState demoState
     (by decide) (by decide) (by decide) (by decide) (by decide) (by decide)⟩

/-- Witness for C3 at w = 8 on the sample state with counter 1. -/
theorem release_decrements_and_finalizes_iff_zero_witness :
    demoState.mem demoState.obj.count = 1 ∧ 0 < 1 ∧ 1 < 2 ^ 8 ∧
    ((azn_gc_object_release 8 demoState).mem demoState.obj.count = 1 - 1 ∧
     (azn_gc_object_release 8 demoState).trace =
       (if 1 = 1 then demoState.trace ++ finalEvents demoState.obj
        else demoState.trace) ∧
     (∀ f, demoState.obj.destructor = some f → 1 = 1 →
       (azn_gc_object_release 8 demoState).trace =
         demoState.trace ++ [Event.destructorCall f demoState.obj.value,
                             Event.free demoState.obj.value])) :=
  ⟨by decide, by decide, by decide,
   release_decrements_and_finalizes_iff_zero 8 demoState 1
     (by decide) (by decide) (by decide)⟩

/-- Witness for C4 at w = 8, size 16, destructor 7. -/
theorem init_count_one_single_release_finalizes_witness :
    0 < 8 ∧
    ((azn_gc_object_init 8 startState 16 (some 7) 100 200).mem
       (azn_gc_object_init 8 startState 16 (some 7) 100 200).obj.count
         = 1 ∧
     (azn_gc_object_release 8
        (azn_gc_object_init 8 startState 16 (some 7) 100 200)).mem
       (azn_gc_object_init 8 startState 16 (some 7) 100 200).obj.count
         = 0 ∧
     (azn_gc_object_release 8
        (azn_gc_object_init 8 startState 16 (some 7) 100 200)).trace =
       startState.trace ++ [Event.malloc 16 100, Event.malloc (8 / 8) 200] ++
         (match (some 7 : Option Nat) with
          | some f => [Event.destructorCall f 100]
          | none => []) ++ [Event.free 100]) :=
  ⟨by decide,
   init_count_one_single_release_finalizes 8 16 100 200 (some 7) startState
     (by decide)⟩

/-- Witness for C5 at w = 8, N = 4 owners, m = 3 releases. -/
theorem no_premature_finalization_witness :
    0 < 8 ∧ 0 < 4 ∧ 4 < 2 ^ 8 ∧ 3 < 4 ∧
    cleanupCount startState.trace = 0 ∧
    Event.free 100 ∉ startState.trace ∧
    (cleanupCount (run 8
        (List.replicate (4 - 1) Op.retainOp ++
          List.replicate 3 Op.releaseOp)
        (azn_gc_object_init 8 startState 32 (some 9) 100 200)).trace = 0 ∧
     Event.free 100 ∉ (run 8
        (List.replicate (4 - 1) Op.retainOp ++
          List.replicate 3 Op.releaseOp)
        (azn_gc_object_init 8 startState 32 (some 9) 100 200)).trace) :=
  ⟨by decide, by decide, by decide, by decide, by decide, by decide,
   no_premature_finalization 8 4 3 32 9 100 200 startState
     (by decide) (by decide) (by decide) (by decide) (by decide) (by decide)⟩

/-- Witness for C6 at w = 8 on the sample state with counter 1. -/
theorem retain_increments_only_witness :
    demoState.mem demoState.obj.count = 1 ∧ 1 + 1 < 2 ^ 8 ∧
    ((azn_gc_object_retain 8 demoState).obj = demoState.obj ∧
     (azn_gc_object_retain 8 demoState).mem demoState.obj.count = 1 + 1 ∧
     (∀ a, a ≠ demoState.obj.count →
       (azn_gc_object_retain 8 demoState).mem a = demoState.mem a) ∧
     (azn_gc_object_retain 8 demoState).trace = demoState.trace) :=
  ⟨by decide, by decide,
   retain_increments_only 8 demoState 1 (by decide) (by decide)⟩

/-- Witness for C7 at w = 8 on the sample state (payload at 100, counter cell
at 200). -/
theorem release_never_frees_counter_witness :
    demoState.obj.count ≠ demoState.obj.value ∧
    Event.free demoState.obj.count ∉ demoState.trace ∧
    (Event.free demoState.obj.count ∉
       (azn_gc_object_release 8 demoState).trace ∧
     (∀ p, Event.free p ∈ (azn_gc_object_release 8 demoState).trace →
       Event.free p ∈ demoState.trace ∨ p = demoState.obj.value)) :=
  ⟨by decide, by decide,
   release_never_frees_counter 8 demoState (by decide) (by decide)⟩

/-- Witness for C8 at w = 8, size 0, no destructor. -/
theorem init_zero_size_no_cleanup_witness :
    0 < 8 ∧ cleanupCount startState.trace = 0 ∧
    ((azn_gc_object_init 8 startState 0 none 100 200).obj.value = 100 ∧
     (azn_gc_object_release 8
        (azn_gc_object_init 8 startState 0 none 100 200)).trace =
       startState.trace ++ [Event.malloc 0 100, Event.malloc (8 / 8) 200,
                            Event.free 100] ∧
     cleanupCount (azn_gc_object_release 8
        (azn_gc_object_init 8 startState 0 none 100 200)).trace = 0) :=
  ⟨by decide, by decide,
   init_zero_size_no_cleanup 8 100 200 startState (by decide) (by decide)⟩

/-- Witness for C10 at w = 8 on the drained sample state (counter 0), with
5 further releases. -/
theorem release_on_zero_wraps_witness :
    0 < 8 ∧ drainedState.mem drainedState.obj.count = 0 ∧ 5 < 2 ^ 8 - 1 ∧
    ((azn_gc_object_release 8 drainedState).mem drainedState.obj.count
        = 2 ^ 8 - 1 ∧
     2 ^ 8 - 1 ≠ 0 ∧
     (azn_gc_object_release 8 drainedState).trace = drainedState.trace ∧
     (run 8 (List.replicate 5 Op.releaseOp)
        (azn_gc_object_release 8 drainedState)).trace
          = drainedState.trace) :=
  ⟨by decide, by decide, by decide,
   release_on_zero_wraps 8 5 drainedState (by decide) (by decide) (by decide)⟩

end AnzenRuntime
